import Mathlib

/-!
Verification development for the XVM editor-tooling reference parser and
lookup index.  The TypeScript source (src/extension.ts) is shallowly
embedded: strings are lists of characters, the JavaScript `Map` (which
preserves insertion order and has unique string keys) is an
insertion-ordered list of `ModuleInfo` records keyed by their `name`
field, and each regular expression of the source is translated into an
explicit deterministic scanning function (all the character classes
involved are pairwise disjoint, so the regexes match by maximal munch
with no observable backtracking).  Filesystem access is modelled by an
`Option` input: `none` stands for a missing reference file.
-/

/-- Text is modelled as a list of characters. -/
abbrev Str := List Char

/-- Model of the JavaScript regex class `\s` (whitespace), restricted to the
ASCII whitespace characters that can occur in the reference file. -/
def isWs (c : Char) : Bool :=
  c = ' ' || c = '\t' || c = '\n' || c = '\r' || c = '\x0b' || c = '\x0c'

/-- Model of the JavaScript regex class `\w`: ASCII letters, digits and
underscore. -/
def isWordChar (c : Char) : Bool :=
  c.isAlpha || c.isDigit || c = '_'

/-- The dash alternatives of the description regex `[—–-]`. -/
def isDash (c : Char) : Bool :=
  c = '—' || c = '–' || c = '-'

/-- Model of `String.prototype.trim` (left side). -/
def trimLeft : Str → Str
  | [] => []
  | c :: cs => if isWs c then trimLeft cs else c :: cs

/-- Model of `String.prototype.trimEnd`. -/
def trimRight (s : Str) : Str :=
  (trimLeft s.reverse).reverse

/-- Model of `String.prototype.trim`. -/
def trim (s : Str) : Str :=
  trimRight (trimLeft s)

/-- Model of `text.split(/\r?\n/)`: cut at each newline, consuming one
carriage return immediately before it. -/
def splitLines : Str → List Str
  | [] => [[]]
  | '\r' :: '\n' :: rest => [] :: splitLines rest
  | '\n' :: rest => [] :: splitLines rest
  | c :: rest =>
    match splitLines rest with
    | [] => [[c]]
    | l :: ls => (c :: l) :: ls

/-- Worker for `splitCommaWsStar`: when `skip` is set the scanner is still
consuming the whitespace run that belongs to the preceding comma
separator. -/
def splitCommaWsStarAux : Bool → Str → List Str
  | _, [] => [[]]
  | skip, c :: rest =>
    if skip && isWs c then splitCommaWsStarAux true rest
    else if c = ',' then [] :: splitCommaWsStarAux true rest
    else
      match splitCommaWsStarAux false rest with
      | [] => [[c]]
      | p :: ps => (c :: p) :: ps

/-- Model of `s.split(/,\s*/)`: every comma is a separator and the
whitespace run following it is consumed with the separator. -/
def splitCommaWsStar (s : Str) : List Str :=
  splitCommaWsStarAux false s

/-- Tests whether the first character of a string is whitespace. -/
def headIsWs : Str → Bool
  | [] => false
  | c :: _ => isWs c

/-- Worker for `splitCommaWs1`: when `skip` is set the scanner is still
consuming the whitespace run that belongs to the preceding comma
separator. -/
def splitCommaWs1Aux : Bool → Str → List Str
  | _, [] => [[]]
  | skip, c :: rest =>
    if skip && isWs c then splitCommaWs1Aux true rest
    else if c = ',' && headIsWs rest then [] :: splitCommaWs1Aux true rest
    else
      match splitCommaWs1Aux false rest with
      | [] => [[c]]
      | p :: ps => (c :: p) :: ps

/-- Model of `s.split(/,\s+/)`: only a comma immediately followed by at
least one whitespace character separates, and the whole whitespace run is
consumed with the separator. -/
def splitCommaWs1 (s : Str) : List Str :=
  splitCommaWs1Aux false s

/-- Model of a one-or-more character-class regex atom (such as `\s+` or
`\w+`): the maximal nonempty run of characters satisfying `p`, together
with the remaining input.  Fails when the run is empty. -/
def span1 (p : Char → Bool) (s : Str) : Option (Str × Str) :=
  let a := s.takeWhile p
  if a.isEmpty then none else some (a, s.dropWhile p)

/-- Consume one expected literal character. -/
def charStep (c : Char) (s : Str) : Option Str :=
  match s with
  | x :: rest => if x = c then some rest else none
  | [] => none

/-- Consume one character of the dash class `[—–-]`. -/
def dashStep (s : Str) : Option Str :=
  match s with
  | x :: rest => if isDash x then some rest else none
  | [] => none

/-- Consume an expected literal string prefix. -/
def dropLit : Str → Str → Option Str
  | [], s => some s
  | c :: cs, x :: xs => if x = c then dropLit cs xs else none
  | _ :: _, [] => none

/-- First-success choice on `Option`, modelling the early returns of the
source. -/
def orElseO (a b : Option α) : Option α :=
  match a with
  | some x => some x
  | none => b

/-- Model of `Array.prototype.join(sep)`. -/
def joinSep (sep : Str) : List Str → Str
  | [] => []
  | [x] => x
  | x :: xs => x ++ sep ++ joinSep sep xs

/-- Decimal rendering of a natural number, for the interpolated counts of
the source. -/
def natToStr (n : Nat) : Str :=
  Nat.toDigits 10 n

/-- Data model of `interface MethodInfo`. -/
structure MethodInfo where
  name : Str
  params : List Str
  returnType : Str
  raw : Str
deriving DecidableEq

/-- Data model of `interface ModuleInfo`. -/
structure ModuleInfo where
  name : Str
  description : Str
  methods : List MethodInfo
  types : List Str
deriving DecidableEq

/-- The capture groups of the method regex
`^#\s+\.(\w+)\(([^)]*)\)(?:\s*->\s*(\w+))?` together with the `raw` text
(`trimmed.replace(/^#\s+/, '')`). -/
structure MethodCapture where
  mname : Str
  inside : Str
  retOpt : Option Str
  raw : Str
deriving DecidableEq

/-- Model of the description regex `^#\s+(\w+)\s+[—–-]\s+(.+)$` applied to a
trimmed line; returns the two capture groups.  Because `\w`, `\s` and the
dash class are pairwise disjoint and the input is trimmed (it cannot end
in whitespace), the regex matches exactly by this maximal-munch scan. -/
def descParse (s : Str) : Option (Str × Str) :=
  (charStep '#' s).bind fun r0 =>
  (span1 isWs r0).bind fun x1 =>
  (span1 isWordChar x1.2).bind fun x2 =>
  (span1 isWs x2.2).bind fun x3 =>
  (dashStep x3.2).bind fun r4 =>
  (span1 isWs r4).bind fun x5 =>
  if x5.2.isEmpty then none else some (x2.1, x5.2)

/-- Model of the optional arrow clause `(?:\s*->\s*(\w+))?`: returns the
captured return-type word when the clause matches. -/
def arrowParse (r5 : Str) : Option Str :=
  (dropLit ('-' :: '>' :: []) (r5.dropWhile isWs)).bind fun r7 =>
  (span1 isWordChar (r7.dropWhile isWs)).bind fun x =>
  some x.1

/-- Model of the method regex `^#\s+\.(\w+)\(([^)]*)\)(?:\s*->\s*(\w+))?`
applied to a trimmed line (the regex is not anchored at the end, so
trailing text after the optional arrow clause is ignored).  `[^)]*` is the
run of characters up to the first closing parenthesis.  The `raw` field is
`trimmed.replace(/^#\s+/, '')`, i.e. the text after the marker and its
following whitespace run. -/
def methodParse (s : Str) : Option MethodCapture :=
  (charStep '#' s).bind fun r0 =>
  (span1 isWs r0).bind fun x1 =>
  (charStep '.' x1.2).bind fun r2 =>
  (span1 isWordChar r2).bind fun x3 =>
  (charStep '(' x3.2).bind fun r4 =>
  (charStep ')' (r4.dropWhile (fun c => !(c = ')')))).bind fun r5 =>
  some ⟨x3.1, r4.takeWhile (fun c => !(c = ')')), arrowParse r5, x1.2⟩

/-- The `Types?:` part of the types regex: literal `Type`, an optional `s`,
then a colon. -/
def typesColon (r2 : Str) : Option Str :=
  orElseO (dropLit ('s' :: ':' :: []) r2) (dropLit (':' :: []) r2)

/-- Model of the types regex `^#\s+Types?:\s*(.+)$` applied to a trimmed
line; returns the capture group. -/
def typesParse (s : Str) : Option Str :=
  (charStep '#' s).bind fun r0 =>
  (span1 isWs r0).bind fun x1 =>
  (dropLit ('T' :: 'y' :: 'p' :: 'e' :: []) x1.2).bind fun r2 =>
  (typesColon r2).bind fun r3 =>
  (let r4 := r3.dropWhile isWs
   if r4.isEmpty then none else some r4)

/-- Lookup key presence in the module map (`modules.has(k)`). -/
def mapHas : List ModuleInfo → Str → Bool
  | [], _ => false
  | mi :: rest, k => if mi.name = k then true else mapHas rest k

/-- Lookup in the module map (`modules.get(k)`). -/
def mapGet : List ModuleInfo → Str → Option ModuleInfo
  | [], _ => none
  | mi :: rest, k => if mi.name = k then some mi else mapGet rest k

/-- In-place mutation of the entry with key `k` (aliased object mutation in
the source); every other entry and the iteration order are untouched. -/
def mapUpdate : List ModuleInfo → Str → (ModuleInfo → ModuleInfo) →
    List ModuleInfo
  | [], _, _ => []
  | mi :: rest, k, f => (if mi.name = k then f mi else mi) :: mapUpdate rest k f

/-- Builds the recorded `MethodInfo` from the regex captures, as in the
source: `paramsStr = match[2].trim()`, `params = paramsStr ?
paramsStr.split(/,\s*/) : []`, `returnType = match[3] || 'void'`. -/
def mkMethodInfo (cap : MethodCapture) : MethodInfo :=
  let paramsStr := trim cap.inside
  { name := cap.mname
    params := if paramsStr.isEmpty then [] else splitCommaWsStar paramsStr
    returnType := cap.retOpt.getD "void".toList
    raw := cap.raw }

/-- The trimmed type names appended by a types line:
`match[1].split(/,\s+/).map(t => t.trim())`. -/
def typeNamesOf (content : Str) : List Str :=
  (splitCommaWs1 content).map trim

/-- Parser state: the module map under construction and the current-module
context (the key of the module object the source's `currentModule`
reference aliases; the alias is always an entry of the map). -/
structure ParseState where
  modules : List ModuleInfo
  currentModule : Option Str
deriving DecidableEq

/-- One iteration of the parser loop of `parseGlobals`, on an already
trimmed line.  The checks run in source order: description, method (only
recorded with a current module), types (likewise), bare module name.  A
line that matches the method or the types pattern necessarily starts with
the marker, so when it is not recorded it also fails the bare-name check
and falls through to a no-op, exactly as in the source. -/
def parseLineT (st : ParseState) (trimmed : Str) : ParseState :=
  match descParse trimmed with
  | some (pendingName, pendingDesc) =>
    { modules :=
        if mapHas st.modules pendingName then
          mapUpdate st.modules pendingName
            (fun mi => { mi with description := pendingDesc })
        else
          st.modules ++
            [{ name := pendingName, description := pendingDesc,
               methods := [], types := [] }]
      currentModule := some pendingName }
  | none =>
    match methodParse trimmed, st.currentModule with
    | some cap, some cur =>
      let f := fun mi => { mi with methods := mi.methods ++ [mkMethodInfo cap] }
      { st with modules := mapUpdate st.modules cur f }
    | _, _ =>
      match typesParse trimmed, st.currentModule with
      | some content, some cur =>
        let f := fun mi => { mi with types := mi.types ++ typeNamesOf content }
        { st with modules := mapUpdate st.modules cur f }
      | _, _ =>
        if trimmed ≠ [] ∧ trimmed.head? ≠ some '#' then
          { modules :=
              if st.currentModule = some trimmed then
                st.modules
              else if mapHas st.modules trimmed then
                st.modules
              else
                st.modules ++
                  [{ name := trimmed, description := [],
                     methods := [], types := [] }]
            currentModule := none }
        else st

/-- One iteration of the parser loop on a raw line (`line.trim()` first). -/
def parseLine (st : ParseState) (line : Str) : ParseState :=
  parseLineT st (trim line)

/-- Model of `parseGlobals` applied to file contents that were read
successfully. -/
def parseGlobalsText (text : Str) : List ModuleInfo :=
  ((splitLines text).foldl parseLine ⟨[], none⟩).modules

/-- Model of `parseGlobals`: `none` stands for a path for which
`fs.existsSync` is false, in which case the empty map is returned without
reading anything. -/
def parseGlobals (file : Option Str) : List ModuleInfo :=
  match file with
  | none => []
  | some text => parseGlobalsText text

/-- Data model of the entries of the fixed `BUILTINS` table. -/
structure Builtin where
  name : Str
  sig : Str
  detail : Str
deriving DecidableEq

/-- The fixed `KEYWORDS` list of the source. -/
def KEYWORDS : List Str :=
  ["def".toList, "if".toList, "elif".toList, "else".toList, "while".toList,
   "return".toList, "pass".toList, "assert".toList, "module".toList,
   "import".toList, "and".toList, "or".toList, "not".toList]

/-- The fixed `CONSTANTS` table of the source (name, detail). -/
def CONSTANTS : List (Str × Str) :=
  [("true".toList, "Boolean true".toList),
   ("false".toList, "Boolean false".toList),
   ("none".toList, "Null value".toList)]

/-- The fixed `BUILTINS` table of the source. -/
def BUILTINS : List Builtin :=
  [⟨"len".toList, "len(obj) -> float".toList,
    "Returns the length of a list or collection".toList⟩,
   ⟨"float".toList, "float(value) -> float".toList,
    "Converts a value to float".toList⟩,
   ⟨"int".toList, "int(value) -> float".toList,
    "Truncates a float to integer (still returns float type)".toList⟩,
   ⟨"abs".toList, "abs(value) -> float".toList,
    "Returns the absolute value".toList⟩]

/-- Model of `textBefore.match(/\b(\w+)\.(\w*)$/)`: the maximal (possibly
empty) word-character suffix, a dot immediately before it, and the maximal
nonempty word-character run before that dot (maximality of the runs makes
the word-boundary assertion automatic). -/
def dotMatch (s : Str) : Option (Str × Str) :=
  let r := s.reverse
  let frag := r.takeWhile isWordChar
  match r.dropWhile isWordChar with
  | '.' :: r2 =>
    let modNameRev := r2.takeWhile isWordChar
    if modNameRev.isEmpty then none else some (modNameRev.reverse, frag.reverse)
  | _ => none

/-- The kinds of completion items constructed by the source
(`vscode.CompletionItemKind`). -/
inductive CIKind where
  | method
  | module
  | keyword
  | constant
  | function
deriving DecidableEq

/-- Model of a constructed `vscode.CompletionItem`: its label, kind,
`detail` string, optional `documentation` markdown text and optional
snippet `insertText` (the host renders these; their assembly in the source
is reproduced verbatim). -/
structure CompletionItem where
  label : Str
  kind : CIKind
  detail : Str
  documentation : Option Str
  insertText : Option Str
deriving DecidableEq

/-- One snippet placeholder of the member-completion insert text, as built
by the source for parameter `p` at zero-based position `i`. -/
def snippetPlaceholder (i : Nat) (p : Str) : Str :=
  "$\x7b".toList ++ natToStr (i + 1) ++ ":".toList ++ p ++ "\x7d".toList

/-- The completion item built for one method of the current module in the
member-completion branch of `provideCompletionItems`. -/
def methodCompletionItem (moduleName : Str) (method : MethodInfo) :
    CompletionItem :=
  let paramList := joinSep ", ".toList method.params
  { label := method.name
    kind := CIKind.method
    detail :=
      moduleName ++ ".".toList ++ method.name ++ "(".toList ++ paramList ++
        ")".toList ++
        (if method.returnType ≠ "void".toList
         then " -> ".toList ++ method.returnType else [])
    documentation :=
      some ("**".toList ++ moduleName ++ "**.".toList ++ method.name ++
        "\n\n```\n".toList ++ method.raw ++ "\n```".toList)
    insertText :=
      some (if 0 < method.params.length then
              method.name ++ "(".toList ++
                joinSep ", ".toList (method.params.mapIdx snippetPlaceholder) ++
                ")".toList
            else
              method.name ++ "()".toList) }

/-- The completion item built for one engine module in the top-level
branch. -/
def moduleCompletionItem (mod : ModuleInfo) : CompletionItem :=
  { label := mod.name
    kind := CIKind.module
    detail :=
      if mod.description.isEmpty then "Engine module: ".toList ++ mod.name
      else mod.description
    documentation :=
      some ("**".toList ++ mod.name ++ "** — ".toList ++ mod.description ++
        "\n\n".toList ++ natToStr mod.methods.length ++
        " methods available. Type `".toList ++ mod.name ++
        ".` to see them.".toList)
    insertText := none }

/-- The completion item built for one keyword in the top-level branch. -/
def keywordCompletionItem (kw : Str) : CompletionItem :=
  { label := kw, kind := CIKind.keyword, detail := "keyword".toList,
    documentation := none, insertText := none }

/-- The completion item built for one constant in the top-level branch. -/
def constantCompletionItem (c : Str × Str) : CompletionItem :=
  { label := c.1, kind := CIKind.constant, detail := c.2,
    documentation := none, insertText := none }

/-- The completion item built for one built-in function in the top-level
branch. -/
def builtinCompletionItem (b : Builtin) : CompletionItem :=
  { label := b.name, kind := CIKind.function, detail := b.sig,
    documentation := some b.detail, insertText := none }

/-- The items of the top-level completion branch, in source iteration
order: modules, keywords, constants, built-ins. -/
def topLevelItems (mods : List ModuleInfo) : List CompletionItem :=
  mods.map moduleCompletionItem ++
    KEYWORDS.map keywordCompletionItem ++
    CONSTANTS.map constantCompletionItem ++
    BUILTINS.map builtinCompletionItem

/-- Model of `provideCompletionItems` as a function of the index and the
line text before the cursor.  After a member-access pattern the module's
methods (or nothing, for an unknown module) are returned; otherwise the
top-level items. -/
def provideCompletionItems (mods : List ModuleInfo) (textBefore : Str) :
    List CompletionItem :=
  match dotMatch textBefore with
  | some (moduleName, _) =>
    match mapGet mods moduleName with
    | some mod => mod.methods.map (methodCompletionItem moduleName)
    | none => []
  | none => topLevelItems mods

/-- A hover result, carrying the payload the source renders into the
returned `vscode.Hover` markdown (the markdown assembly itself is host
boundary). -/
inductive HoverInfo where
  | methodSig (sig : Str) (moduleNote : Option Str)
  | moduleDot (text : Str)
  | moduleStandalone (text : Str)
  | builtinSig (sig : Str) (detail : Str)
  | keywordNote (w : Str)
  | constNote (text : Str)
deriving DecidableEq

/-- The method signature string rendered by the hover and signature-help
providers: `module.method(params)` with an arrow clause exactly when the
return type is not `void`. -/
def sigLabel (moduleName methodName : Str) (method : MethodInfo) : Str :=
  moduleName ++ ".".toList ++ methodName ++ "(".toList ++
    joinSep ", ".toList method.params ++ ")".toList ++
    (if method.returnType ≠ "void".toList
     then " -> ".toList ++ method.returnType else [])

/-- Hover step 1: the token is immediately preceded by a dot — look the
token up as a method of the module named by the word run ending just
before that dot. -/
def hoverMethod (mods : List ModuleInfo) (lineText : Str) (ws we : Nat) :
    Option HoverInfo :=
  let word := (lineText.drop ws).take (we - ws)
  if 0 < ws ∧ lineText.get? (ws - 1) = some '.' then
    let beforeDot := lineText.take (ws - 1)
    let modNameRev := beforeDot.reverse.takeWhile isWordChar
    if modNameRev.isEmpty then none
    else
      match mapGet mods modNameRev.reverse with
      | some mod =>
        match mod.methods.find? (fun m => m.name == word) with
        | some method =>
          some (HoverInfo.methodSig (sigLabel mod.name method.name method)
            (if mod.description.isEmpty then none
             else some ("\n*Module: ".toList ++ mod.name ++ " — ".toList ++
               mod.description ++ "*".toList)))
        | none => none
      | none => none
  else none

/-- Hover step 2: the token is immediately followed by a dot — look it up
as a module name. -/
def hoverModuleDot (mods : List ModuleInfo) (lineText : Str) (ws we : Nat) :
    Option HoverInfo :=
  let word := (lineText.drop ws).take (we - ws)
  if we < lineText.length ∧ lineText.get? we = some '.' then
    match mapGet mods word with
    | some mod =>
      some (HoverInfo.moduleDot ("**".toList ++ mod.name ++ "** — ".toList ++
        mod.description ++ "\n\n".toList ++ natToStr mod.methods.length ++
        " methods".toList ++
        (if 0 < mod.types.length
         then " | Types: ".toList ++ joinSep ", ".toList mod.types else [])))
    | none => none
  else none

/-- Hover step 3: the bare token as a module name. -/
def hoverModuleStandalone (mods : List ModuleInfo) (lineText : Str)
    (ws we : Nat) : Option HoverInfo :=
  let word := (lineText.drop ws).take (we - ws)
  match mapGet mods word with
  | some mod =>
    some (HoverInfo.moduleStandalone ("**".toList ++ mod.name ++
      "** — ".toList ++ mod.description ++ "\n\n".toList ++
      natToStr mod.methods.length ++ " methods available".toList))
  | none => none

/-- Hover step 4: the token as a built-in function name. -/
def hoverBuiltin (lineText : Str) (ws we : Nat) : Option HoverInfo :=
  let word := (lineText.drop ws).take (we - ws)
  match BUILTINS.find? (fun b => b.name == word) with
  | some b => some (HoverInfo.builtinSig b.sig b.detail)
  | none => none

/-- Hover step 5: the token as a keyword. -/
def hoverKeyword (lineText : Str) (ws we : Nat) : Option HoverInfo :=
  let word := (lineText.drop ws).take (we - ws)
  if KEYWORDS.any (fun kw => kw == word) then some (HoverInfo.keywordNote word)
  else none

/-- Hover step 6: the token as a constant. -/
def hoverConst (lineText : Str) (ws we : Nat) : Option HoverInfo :=
  let word := (lineText.drop ws).take (we - ws)
  match CONSTANTS.find? (fun c => c.1 == word) with
  | some c =>
    some (HoverInfo.constNote ("**".toList ++ c.1 ++ "** — ".toList ++ c.2))
  | none => none

/-- Model of `provideHover` as a function of the index, the line text and
the word range `[ws, we)` supplied by the host.  The sequence of early
returns of the source is the first-success chain of the six steps. -/
def provideHover (mods : List ModuleInfo) (lineText : Str) (ws we : Nat) :
    Option HoverInfo :=
  orElseO (hoverMethod mods lineText ws we)
    (orElseO (hoverModuleDot mods lineText ws we)
      (orElseO (hoverModuleStandalone mods lineText ws we)
        (orElseO (hoverBuiltin lineText ws we)
          (orElseO (hoverKeyword lineText ws we)
            (hoverConst lineText ws we)))))

/-- The backward scan of `provideSignatureHelp`, on the reversed text
before the cursor: a closing parenthesis raises the depth, an opening
parenthesis at positive depth lowers it, an opening parenthesis at depth
zero stops the scan (returning the original text before it, still held
reversed in `rest`, and the comma count), and a comma at depth zero is
counted. -/
def scanRev : Str → Nat → Nat → Option (Str × Nat)
  | [], _, _ => none
  | c :: rest, depth, commas =>
    if c = ')' then scanRev rest (depth + 1) commas
    else if c = '(' then
      if depth = 0 then some (rest.reverse, commas)
      else scanRev rest (depth - 1) commas
    else if c = ',' ∧ depth = 0 then scanRev rest depth (commas + 1)
    else scanRev rest depth commas

/-- Model of `beforeParen.match(/\b(\w+)\.(\w+)$/)`: maximal nonempty
word-character suffix, a dot, then a maximal nonempty word-character run
before the dot. -/
def callMatch (s : Str) : Option (Str × Str) :=
  let r := s.reverse
  let methRev := r.takeWhile isWordChar
  if methRev.isEmpty then none
  else
    match r.dropWhile isWordChar with
    | '.' :: r2 =>
      let modRev := r2.takeWhile isWordChar
      if modRev.isEmpty then none else some (modRev.reverse, methRev.reverse)
    | _ => none

/-- Model of `signature.match(/\(([^)]*)\)/)`: the text between the first
opening parenthesis and the first closing parenthesis after it. -/
def firstParenContent (s : Str) : Option Str :=
  match s.dropWhile (fun c => !(c = '(')) with
  | '(' :: r =>
    match r.dropWhile (fun c => !(c = ')')) with
    | ')' :: _ => some (r.takeWhile (fun c => !(c = ')')))
    | _ => none
  | _ => none

/-- The parameter list the source derives from a built-in signature string
(`paramMatch[1].split(/,\s*/)` when the parenthesized content is
nonempty, otherwise no parameters). -/
def builtinParams (sig : Str) : List Str :=
  match firstParenContent sig with
  | some content =>
    if content.isEmpty then [] else splitCommaWsStar content
  | none => []

/-- Model of the returned `vscode.SignatureHelp` (one signature, active
signature 0): label, documentation string, parameter labels and the
active-parameter index. -/
structure SigHelp where
  label : Str
  docString : Str
  parameters : List Str
  activeParameter : Nat
deriving DecidableEq

/-- Model of `beforeParen.match(/\b(\w+)$/)` followed by the `BUILTINS`
lookup: the maximal nonempty word-character suffix, tried as a built-in
function name. -/
def builtinLookup (s : Str) : Option Builtin :=
  let lastWordRev := s.reverse.takeWhile isWordChar
  if lastWordRev.isEmpty then none
  else BUILTINS.find? (fun b => b.name == lastWordRev.reverse)

/-- The `module.method` resolution of `provideSignatureHelp`: the
`callMatch` pattern, then the module lookup, then the first method with
the matched name. -/
def callLookup (mods : List ModuleInfo) (s : Str) :
    Option (Str × Str × MethodInfo) :=
  match callMatch s with
  | some (moduleName, methodName) =>
    match mapGet mods moduleName with
    | some mod =>
      match mod.methods.find? (fun m => m.name == methodName) with
      | some method => some (moduleName, methodName, method)
      | none => none
    | none => none
  | none => none

/-- The callee resolution of `provideSignatureHelp` on the trimmed text
before the open parenthesis: a built-in function name is tried first, then
the `module.method` pattern; both signature shapes carry the comma count
as the active-parameter index. -/
def resolveCallee (mods : List ModuleInfo) (s : Str) (commas : Nat) :
    Option SigHelp :=
  match builtinLookup s with
  | some b =>
    some { label := b.sig, docString := b.detail,
           parameters := builtinParams b.sig, activeParameter := commas }
  | none =>
    match callLookup mods s with
    | some (moduleName, methodName, method) =>
      some { label := sigLabel moduleName methodName method,
             docString := method.raw, parameters := method.params,
             activeParameter := commas }
    | none => none

/-- Model of `provideSignatureHelp` as a function of the index and the
line text before the cursor: backward scan for the innermost unmatched
open parenthesis, then callee resolution on the trimmed text before it. -/
def provideSignatureHelp (mods : List ModuleInfo) (textBefore : Str) :
    Option SigHelp :=
  match scanRev textBefore.reverse 0 0 with
  | none => none
  | some (beforeParenText, commas) =>
    resolveCallee mods (trimRight beforeParenText) commas

/-- A successful literal-character step exposes the head of the input. -/
theorem charStep_some {c : Char} {s r : Str} (h : charStep c s = some r) :
    s = c :: r := by
  cases s with
  | nil => exact absurd h (by simp [charStep])
  | cons x rest =>
    by_cases hx : x = c
    · subst hx
      have h' : some rest = some r := by simpa [charStep] using h
      injection h' with h'
      rw [h']
    · simp [charStep, hx] at h

/-- A successful literal-string step exposes the prefix of the input. -/
theorem dropLit_some : ∀ {l s r : Str}, dropLit l s = some r → s = l ++ r
  | [], s, r, h => by
    simp only [dropLit, Option.some.injEq] at h
    rw [h, List.nil_append]
  | c :: cs, x :: xs, r, h => by
    by_cases hx : x = c
    · subst hx
      simp only [dropLit, if_pos rfl] at h
      rw [List.cons_append, ← dropLit_some h]
    · simp [dropLit, hx] at h

/-- A character-run step fails on a head character outside the class. -/
theorem span1_cons_false {p : Char → Bool} {c : Char} {r : Str}
    (h : p c = false) : span1 p (c :: r) = none := by
  simp [span1, List.takeWhile_cons, h]

/-- A matched description line starts with the marker character. -/
theorem descParse_hash {s : Str} {x : Str × Str} (h : descParse s = some x) :
    s.head? = some '#' := by
  simp only [descParse, Option.bind_eq_some] at h
  obtain ⟨r0, h0, -⟩ := h
  rw [charStep_some h0]
  rfl

/-- A matched method line starts with the marker character. -/
theorem methodParse_hash {s : Str} {cap : MethodCapture}
    (h : methodParse s = some cap) : s.head? = some '#' := by
  simp only [methodParse, Option.bind_eq_some] at h
  obtain ⟨r0, h0, -⟩ := h
  rw [charStep_some h0]
  rfl

/-- A matched types line starts with the marker character. -/
theorem typesParse_hash {s : Str} {x : Str} (h : typesParse s = some x) :
    s.head? = some '#' := by
  simp only [typesParse, Option.bind_eq_some] at h
  obtain ⟨r0, h0, -⟩ := h
  rw [charStep_some h0]
  rfl

/-- A line matching the method pattern cannot match the description
pattern: after the marker and its whitespace run the method pattern
requires a dot, which is not a word character. -/
theorem descParse_none_of_methodParse {s : Str} {cap : MethodCapture}
    (h : methodParse s = some cap) : descParse s = none := by
  simp only [methodParse, Option.bind_eq_some] at h
  obtain ⟨r0, h0, x1, h1, r2, h2, -⟩ := h
  rw [charStep_some h0]
  simp only [descParse]
  rw [show charStep '#' ('#' :: r0) = some r0 from by simp [charStep],
    Option.some_bind, h1, Option.some_bind, charStep_some h2,
    span1_cons_false (show isWordChar '.' = false from by decide)]
  rfl

/-- A line matching the method pattern cannot match the types pattern:
after the marker and its whitespace run the method pattern requires a dot,
not the literal `Type`. -/
theorem typesParse_none_of_methodParse {s : Str} {cap : MethodCapture}
    (h : methodParse s = some cap) : typesParse s = none := by
  simp only [methodParse, Option.bind_eq_some] at h
  obtain ⟨r0, h0, x1, h1, r2, h2, -⟩ := h
  rw [charStep_some h0]
  simp only [typesParse]
  rw [show charStep '#' ('#' :: r0) = some r0 from by simp [charStep],
    Option.some_bind, h1, Option.some_bind, charStep_some h2]
  rfl

/-- A line matching the types pattern cannot match the method pattern. -/
theorem methodParse_none_of_typesParse {s : Str} {x : Str}
    (h : typesParse s = some x) : methodParse s = none := by
  simp only [typesParse, Option.bind_eq_some] at h
  obtain ⟨r0, h0, x1, h1, r2, h2, -⟩ := h
  rw [charStep_some h0]
  simp only [methodParse]
  rw [show charStep '#' ('#' :: r0) = some r0 from by simp [charStep],
    Option.some_bind, h1, Option.some_bind, dropLit_some h2]
  rfl

/-- A successful optional-`s`-colon step exposes the shape of its input. -/
theorem typesColon_some {r2 r3 : Str} (h : typesColon r2 = some r3) :
    r2 = 's' :: ':' :: r3 ∨ r2 = ':' :: r3 := by
  unfold typesColon orElseO at h
  cases h1 : dropLit ('s' :: ':' :: []) r2 with
  | some r =>
    rw [h1] at h
    injection h with h
    subst h
    exact Or.inl (dropLit_some h1)
  | none =>
    rw [h1] at h
    exact Or.inr (dropLit_some h)

/-- A line matching the types pattern cannot match the description
pattern: the word run after the marker is `Type` or `Types` followed
immediately by a colon, where the description pattern requires
whitespace. -/
theorem descParse_none_of_typesParse {s : Str} {x : Str}
    (h : typesParse s = some x) : descParse s = none := by
  simp only [typesParse, Option.bind_eq_some] at h
  obtain ⟨r0, h0, x1, h1, r2, h2, r3, h3, -⟩ := h
  rw [charStep_some h0]
  simp only [descParse]
  rw [show charStep '#' ('#' :: r0) = some r0 from by simp [charStep],
    Option.some_bind, h1, Option.some_bind, dropLit_some h2]
  rcases typesColon_some h3 with hr | hr
  · rw [hr]
    rw [show span1 isWordChar
        (('T' :: 'y' :: 'p' :: 'e' :: []) ++ 's' :: ':' :: r3) =
        some (('T' :: 'y' :: 'p' :: 'e' :: 's' :: []), ':' :: r3) from rfl,
      Option.some_bind,
      span1_cons_false (show isWs ':' = false from by decide)]
    rfl
  · rw [hr]
    rw [show span1 isWordChar
        (('T' :: 'y' :: 'p' :: 'e' :: []) ++ ':' :: r3) =
        some (('T' :: 'y' :: 'p' :: 'e' :: []), ':' :: r3) from rfl,
      Option.some_bind,
      span1_cons_false (show isWs ':' = false from by decide)]
    rfl

/-- Updating the entry with key `k` by a name-preserving function changes
the lookup of `k` by exactly that function. -/
theorem mapGet_mapUpdate_self (m : List ModuleInfo) (k : Str)
    (f : ModuleInfo → ModuleInfo) (hf : ∀ mi, (f mi).name = mi.name) :
    mapGet (mapUpdate m k f) k = (mapGet m k).map f := by
  induction m with
  | nil => rfl
  | cons mi rest ih =>
    by_cases hk : mi.name = k
    · simp [mapGet, mapUpdate, hk, hf]
    · simp [mapGet, mapUpdate, hk, ih]

/-- Updating the entry with key `k` by a name-preserving function leaves
the lookup of every other key unchanged. -/
theorem mapGet_mapUpdate_ne (m : List ModuleInfo) (k k' : Str)
    (f : ModuleInfo → ModuleInfo) (hf : ∀ mi, (f mi).name = mi.name)
    (hne : k' ≠ k) :
    mapGet (mapUpdate m k f) k' = mapGet m k' := by
  induction m with
  | nil => rfl
  | cons mi rest ih =>
    by_cases hk : mi.name = k
    · have h1 : ¬ (f mi).name = k' := by
        rw [hf mi, hk]
        exact fun h => hne h.symm
      have h2 : ¬ mi.name = k' := by
        rw [hk]
        exact fun h => hne h.symm
      simp [mapGet, mapUpdate, hk, h1, h2, ih, hne.symm]
    · by_cases hk' : mi.name = k'
      · simp [mapGet, mapUpdate, hk, hk', hne]
      · simp [mapGet, mapUpdate, hk, hk', ih]

/-- Updating by a name-preserving function does not change which keys are
present. -/
theorem mapHas_mapUpdate (m : List ModuleInfo) (k k' : Str)
    (f : ModuleInfo → ModuleInfo) (hf : ∀ mi, (f mi).name = mi.name) :
    mapHas (mapUpdate m k f) k' = mapHas m k' := by
  induction m with
  | nil => rfl
  | cons mi rest ih =>
    by_cases hk : mi.name = k
    · simp [mapHas, mapUpdate, hk, hf, ih]
    · simp [mapHas, mapUpdate, hk, ih]

/-- Two successive name-preserving updates of the same key compose. -/
theorem mapUpdate_mapUpdate (m : List ModuleInfo) (k : Str)
    (f g : ModuleInfo → ModuleInfo) (hf : ∀ mi, (f mi).name = mi.name) :
    mapUpdate (mapUpdate m k f) k g = mapUpdate m k (fun mi => g (f mi)) := by
  induction m with
  | nil => rfl
  | cons mi rest ih =>
    by_cases hk : mi.name = k
    · simp [mapUpdate, hk, hf, ih]
    · simp [mapUpdate, hk, ih]

/-- A line matching the method or the types pattern, processed with no
current module, is a complete no-op: the description check fails by
pattern disjointness, the method and types branches require a current
module, and the bare-name branch fails because the line starts with the
marker. -/
theorem parseLineT_marker_no_cur (st : ParseState) (t : Str)
    (hcur : st.currentModule = none)
    (hmt : (methodParse t).isSome ∨ (typesParse t).isSome) :
    parseLineT st t = st := by
  rcases hmt with hm | ht
  · obtain ⟨cap, hcap⟩ := Option.isSome_iff_exists.mp hm
    have hd := descParse_none_of_methodParse hcap
    have hty := typesParse_none_of_methodParse hcap
    have hh := methodParse_hash hcap
    simp only [parseLineT, hd, hcap, hcur, hty]
    rw [if_neg]
    intro hcontra
    exact hcontra.2 hh
  · obtain ⟨content, hcont⟩ := Option.isSome_iff_exists.mp ht
    have hd := descParse_none_of_typesParse hcont
    have hm := methodParse_none_of_typesParse hcont
    have hh := typesParse_hash hcont
    simp only [parseLineT, hd, hcont, hcur, hm]
    rw [if_neg]
    intro hcontra
    exact hcontra.2 hh

/-- Splitting at every comma with no side condition; together with `trim`
this expresses the claim wording "splitting the parenthesized content on
commas with whitespace trimmed" / "each comma-separated name, with
surrounding whitespace trimmed". -/
def splitCommas (s : Str) : List Str :=
  match s with
  | [] => [[]]
  | c :: rest =>
    if c = ',' then
      [] :: splitCommas rest
    else
      match splitCommas rest with
      | [] => [[c]]
      | p :: ps => (c :: p) :: ps

/-- Demo method `Honk()` of the worked examples. -/
def vehicleHonk : MethodInfo :=
  ⟨"Honk".toList, [], "void".toList, ".Honk()".toList⟩

/-- Demo method `SetSpeed(v)` of the worked examples. -/
def vehicleSetSpeed : MethodInfo :=
  ⟨"SetSpeed".toList, ["v".toList], "void".toList, ".SetSpeed(v)".toList⟩

/-- Demo module `vehicle` of the worked examples. -/
def vehicleMod : ModuleInfo :=
  ⟨"vehicle".toList, "car control".toList, [vehicleHonk, vehicleSetSpeed], []⟩

/-- Demo method `SetSpeed(v, w) -> float` of the worked examples. -/
def engineSetSpeed : MethodInfo :=
  ⟨"SetSpeed".toList, ["v".toList, "w".toList], "float".toList,
   ".SetSpeed(v, w) -> float".toList⟩

/-- Demo module `engine` of the worked examples. -/
def engineMod : ModuleInfo :=
  ⟨"engine".toList, "engine control".toList, [engineSetSpeed],
   ["HitInfo".toList]⟩

/-- Demo index of the worked examples. -/
def demoModules : List ModuleInfo := [vehicleMod, engineMod]

/-- C1 (amended): a method line processed with a current module appends to
that module exactly one method whose parameter list splits the trimmed
parenthesized content at commas, consuming only the whitespace that
FOLLOWS each comma (whitespace preceding an interior comma stays in the
preceding parameter; the empty list when the trimmed content is empty),
and whose return type is the arrow clause's word when present and the
sentinel `void` otherwise. -/
theorem c1_method_line_params_return (st : ParseState) (line : Str)
    (cap : MethodCapture) (cur : Str)
    (hcap : methodParse (trim line) = some cap)
    (hcur : st.currentModule = some cur) :
    parseLine st line =
      { st with modules := mapUpdate st.modules cur (fun mi =>
          { mi with methods := mi.methods ++
              [{ name := cap.mname
                 params := if (trim cap.inside).isEmpty then []
                           else splitCommaWsStar (trim cap.inside)
                 returnType := cap.retOpt.getD "void".toList
                 raw := cap.raw }] }) } := by
  have hd := descParse_none_of_methodParse hcap
  simp only [parseLine, parseLineT, hd, hcap, hcur, mkMethodInfo]

/-- Witness for C1's amended theorem: parsing the method line
`#   .Foo(a ,b)` in a module context records the parameters
`["a ", "b"]` (the space before the comma survives) and return type
`void`. -/
theorem c1_method_line_params_return_witness :
    parseLine ⟨[⟨"m".toList, "d".toList, [], []⟩], some "m".toList⟩
        ("#   .Foo(a ,b)".toList) =
      ⟨[⟨"m".toList, "d".toList,
         [⟨"Foo".toList, ["a ".toList, "b".toList], "void".toList,
          ".Foo(a ,b)".toList⟩], []⟩], some "m".toList⟩ := by
  have h := c1_method_line_params_return
    ⟨[⟨"m".toList, "d".toList, [], []⟩], some "m".toList⟩
    ("#   .Foo(a ,b)".toList)
    ⟨"Foo".toList, "a ,b".toList, none, ".Foo(a ,b)".toList⟩
    ("m".toList) (by decide) rfl
  rw [h]
  decide

/-- C1 counterexample: the claim as stated (parameters obtained by
splitting on commas with whitespace trimmed) fails on the line
`#   .Foo(a ,b)`: the recorded parameters are `["a ", "b"]`, not the
comma-split-and-trimmed `["a", "b"]`. -/
theorem c1_method_line_params_counterexample :
    (mapGet (parseGlobals (some ("# m — d\n#   .Foo(a ,b)".toList)))
        ("m".toList)).map (fun mi => mi.methods.map MethodInfo.params) =
      some [[ "a ".toList, "b".toList ]]
    ∧ (splitCommas ("a ,b".toList)).map trim = ["a".toList, "b".toList]
    ∧ [ "a ".toList, "b".toList ] ≠ ["a".toList, "b".toList] := by
  decide

/-- C9: a missing reference file yields the empty module mapping, not an
error. -/
theorem c9_missing_file_empty_mapping : parseGlobals none = [] := rfl

/-- C3: a line matching the method pattern or the types pattern, processed
while the current-module context is none, records nothing: the state (in
particular the module mapping) is exactly what it was before, with no
error. -/
theorem c3_marker_line_dropped_without_module (st : ParseState) (line : Str)
    (hcur : st.currentModule = none)
    (hmt : (methodParse (trim line)).isSome ∨ (typesParse (trim line)).isSome) :
    parseLine st line = st :=
  parseLineT_marker_no_cur st (trim line) hcur hmt

/-- Witness for C3: a method line before any description line leaves the
empty state untouched. -/
theorem c3_marker_line_dropped_without_module_witness :
    parseLine ⟨[], none⟩ ("#   .Foo(a, b) -> float".toList) = ⟨[], none⟩ :=
  c3_marker_line_dropped_without_module ⟨[], none⟩
    ("#   .Foo(a, b) -> float".toList) rfl (Or.inl (by decide))

/-- C2: a bare module-name line (non-blank, not starting with the marker)
creates an entry with empty description, methods and types when none with
that name exists, leaves an existing entry untouched, and always resets
the current-module context to none — so marker-prefixed method or types
lines that follow it (before the next description line) are dropped.  The
hypothesis that the current module, when set, is a key of the map is an
invariant of the parser (it is established by the description branch,
which always stores the pending module). -/
theorem c2_bare_name_line (st : ParseState) (line : Str)
    (hInv : ∀ n, st.currentModule = some n → mapHas st.modules n = true)
    (hne : trim line ≠ [])
    (hhash : (trim line).head? ≠ some '#') :
    parseLine st line =
      ⟨(if mapHas st.modules (trim line) then st.modules
        else st.modules ++
          [{ name := trim line, description := [], methods := [],
             types := [] }]), none⟩
    ∧ ∀ l2, ((methodParse (trim l2)).isSome ∨ (typesParse (trim l2)).isSome) →
        parseLine (parseLine st line) l2 = parseLine st line := by
  have hd : descParse (trim line) = none := by
    cases h' : descParse (trim line) with
    | none => rfl
    | some x => exact absurd (descParse_hash h') hhash
  have hm : methodParse (trim line) = none := by
    cases h' : methodParse (trim line) with
    | none => rfl
    | some x => exact absurd (methodParse_hash h') hhash
  have hty : typesParse (trim line) = none := by
    cases h' : typesParse (trim line) with
    | none => rfl
    | some x => exact absurd (typesParse_hash h') hhash
  have h1 : parseLine st line =
      ⟨(if mapHas st.modules (trim line) then st.modules
        else st.modules ++
          [{ name := trim line, description := [], methods := [],
             types := [] }]), none⟩ := by
    cases hc : st.currentModule with
    | none =>
      simp only [parseLine, parseLineT, hd, hm, hty, hc]
      rw [if_pos ⟨hne, hhash⟩]
      simp
    | some n =>
      by_cases hn : n = trim line
      · have hhas : mapHas st.modules (trim line) = true := by
          rw [← hn]
          exact hInv n hc
        simp only [parseLine, parseLineT, hd, hm, hty, hc]
        rw [if_pos ⟨hne, hhash⟩]
        simp [hn, hhas]
      · simp only [parseLine, parseLineT, hd, hm, hty, hc]
        rw [if_pos ⟨hne, hhash⟩]
        simp [hn]
  refine ⟨h1, fun l2 hmt => ?_⟩
  exact parseLineT_marker_no_cur (parseLine st line) (trim l2)
    (by rw [h1]) hmt

/-- Witness for C2: the bare name `vehicle` creates an empty entry and a
following method line is then dropped. -/
theorem c2_bare_name_line_witness :
    parseLine ⟨[], none⟩ ("vehicle".toList) =
      ⟨[{ name := "vehicle".toList, description := [], methods := [],
          types := [] }], none⟩
    ∧ parseLine (parseLine ⟨[], none⟩ ("vehicle".toList))
        ("#   .Honk()".toList) =
      parseLine ⟨[], none⟩ ("vehicle".toList) := by
  have h := c2_bare_name_line ⟨[], none⟩ ("vehicle".toList)
    (fun n hn => Option.noConfusion hn) (by decide) (by decide)
  refine ⟨?_, h.2 ("#   .Honk()".toList) (Or.inl (by decide))⟩
  rw [h.1]
  decide

/-- A description line whose module already exists reduces to a keyed
update of that module's description (shared reduction step). -/
theorem parseLineT_desc_update (st : ParseState) (t name desc : Str)
    (hdesc : descParse t = some (name, desc))
    (hhas : mapHas st.modules name = true) :
    parseLineT st t =
      ⟨mapUpdate st.modules name (fun mi => { mi with description := desc }),
       some name⟩ := by
  simp only [parseLineT, hdesc, hhas, if_true]

/-- C4: a description line for a module that already exists replaces only
that module's description: its methods and types are unchanged, every
other module is unchanged, and a repeated description line for the same
name overwrites the description again.  The current-module context is set
to that module. -/
theorem c4_description_line_frame (st : ParseState) (line : Str)
    (name desc : Str)
    (hdesc : descParse (trim line) = some (name, desc))
    (hhas : mapHas st.modules name = true) :
    parseLine st line =
      ⟨mapUpdate st.modules name (fun mi => { mi with description := desc }),
       some name⟩
    ∧ mapGet (parseLine st line).modules name =
        (mapGet st.modules name).map
          (fun mi => { mi with description := desc })
    ∧ (∀ k, k ≠ name →
        mapGet (parseLine st line).modules k = mapGet st.modules k)
    ∧ (∀ line2 desc2, descParse (trim line2) = some (name, desc2) →
        parseLine (parseLine st line) line2 =
          ⟨mapUpdate st.modules name
            (fun mi => { mi with description := desc2 }), some name⟩) := by
  have h1 : parseLine st line =
      ⟨mapUpdate st.modules name (fun mi => { mi with description := desc }),
       some name⟩ :=
    parseLineT_desc_update st (trim line) name desc hdesc hhas
  refine ⟨h1, ?_, ?_, ?_⟩
  · rw [h1]
    exact mapGet_mapUpdate_self st.modules name _ (fun mi => rfl)
  · intro k hk
    rw [h1]
    exact mapGet_mapUpdate_ne st.modules name k _ (fun mi => rfl) hk
  · intro line2 desc2 hdesc2
    have hhas2 : mapHas (parseLine st line).modules name = true := by
      rw [h1]
      show mapHas (mapUpdate st.modules name
        (fun mi => { mi with description := desc })) name = true
      rw [mapHas_mapUpdate st.modules name name
        (fun mi => { mi with description := desc }) (fun mi => rfl)]
      exact hhas
    have h2 : parseLine (parseLine st line) line2 =
        ⟨mapUpdate (parseLine st line).modules name
          (fun mi => { mi with description := desc2 }), some name⟩ :=
      parseLineT_desc_update (parseLine st line) (trim line2) name desc2
        hdesc2 hhas2
    rw [h2, h1]
    show (⟨mapUpdate (mapUpdate st.modules name
        (fun mi => { mi with description := desc })) name
        (fun mi => { mi with description := desc2 }), some name⟩ : ParseState)
      = _
    rw [mapUpdate_mapUpdate st.modules name
      (fun mi => { mi with description := desc })
      (fun mi => { mi with description := desc2 }) (fun mi => rfl)]

/-- Witness for C4: `# m — new` on an index holding module `m` (with a
method and a type) replaces only the description; re-describing with
`# m — newer` overwrites it again. -/
theorem c4_description_line_frame_witness :
    parseLine
        ⟨[⟨"m".toList, "old".toList, [vehicleHonk], ["T".toList]⟩], none⟩
        ("# m — new".toList) =
      ⟨[⟨"m".toList, "new".toList, [vehicleHonk], ["T".toList]⟩],
       some "m".toList⟩
    ∧ parseLine (parseLine
        ⟨[⟨"m".toList, "old".toList, [vehicleHonk], ["T".toList]⟩], none⟩
        ("# m — new".toList)) ("# m — newer".toList) =
      ⟨[⟨"m".toList, "newer".toList, [vehicleHonk], ["T".toList]⟩],
       some "m".toList⟩ := by
  have h := c4_description_line_frame
    ⟨[⟨"m".toList, "old".toList, [vehicleHonk], ["T".toList]⟩], none⟩
    ("# m — new".toList) ("m".toList) ("new".toList) (by decide) (by decide)
  constructor
  · rw [h.1]
    decide
  · rw [h.2.2.2 ("# m — newer".toList) ("newer".toList) (by decide)]
    decide

/-- C5 (amended): a types line processed with a current module appends to
that module's type list the pieces of the captured text split at commas
that are immediately FOLLOWED by whitespace (a comma not followed by
whitespace does not separate), each piece trimmed; the current-module
context is preserved. -/
theorem c5_types_line_append (st : ParseState) (line : Str)
    (content : Str) (cur : Str)
    (hty : typesParse (trim line) = some content)
    (hcur : st.currentModule = some cur) :
    parseLine st line =
      { st with modules := mapUpdate st.modules cur (fun mi =>
          { mi with types := mi.types ++ (splitCommaWs1 content).map trim }) }
    := by
  have hd := descParse_none_of_typesParse hty
  have hm := methodParse_none_of_typesParse hty
  simp only [parseLine, parseLineT, hd, hm, hty, hcur, typeNamesOf]

/-- Witness for C5's amended theorem: the types line
`#   Types: HitInfo, PhysicsChassis` appends the two names. -/
theorem c5_types_line_append_witness :
    parseLine ⟨[⟨"m".toList, "d".toList, [], []⟩], some "m".toList⟩
        ("#   Types: HitInfo, PhysicsChassis".toList) =
      ⟨[⟨"m".toList, "d".toList, [],
         ["HitInfo".toList, "PhysicsChassis".toList]⟩], some "m".toList⟩ := by
  have h := c5_types_line_append
    ⟨[⟨"m".toList, "d".toList, [], []⟩], some "m".toList⟩
    ("#   Types: HitInfo, PhysicsChassis".toList)
    ("HitInfo, PhysicsChassis".toList) ("m".toList) (by decide) rfl
  rw [h]
  decide

/-- C5 counterexample: the claim as stated (each comma-separated name is
appended, trimmed, so n comma-separated names append n names) fails on the
line `#   Types: A,B`: the comma is not followed by whitespace, so a
single name `A,B` is appended instead of the two names `A` and `B`. -/
theorem c5_types_line_counterexample :
    (mapGet (parseGlobals (some ("# m — d\n#   Types: A,B".toList)))
        ("m".toList)).map ModuleInfo.types = some ["A,B".toList]
    ∧ (splitCommas ("A,B".toList)).map trim = ["A".toList, "B".toList]
    ∧ ["A,B".toList] ≠ ["A".toList, "B".toList] := by
  decide

/-- C7: for text ending in a member-access pattern whose identifier names
a known module, member completion returns exactly that module's methods,
in order, each with display signature `module.method(params)` plus an
arrow clause exactly when the return type is not the void sentinel, and
with insertion snippet `Name()` for a zero-parameter method and otherwise
one independently editable placeholder per parameter, numbered
left-to-right. -/
theorem c7_member_completion (mods : List ModuleInfo) (textBefore : Str)
    (modName frag : Str) (mod : ModuleInfo)
    (h1 : dotMatch textBefore = some (modName, frag))
    (h2 : mapGet mods modName = some mod) :
    provideCompletionItems mods textBefore =
      mod.methods.map (fun method =>
        { label := method.name
          kind := CIKind.method
          detail := modName ++ ".".toList ++ method.name ++ "(".toList ++
            joinSep ", ".toList method.params ++ ")".toList ++
            (if method.returnType ≠ "void".toList
             then " -> ".toList ++ method.returnType else [])
          documentation := some ("**".toList ++ modName ++ "**.".toList ++
            method.name ++ "\n\n```\n".toList ++ method.raw ++
            "\n```".toList)
          insertText := some (if 0 < method.params.length then
              method.name ++ "(".toList ++
                joinSep ", ".toList
                  (method.params.mapIdx snippetPlaceholder) ++ ")".toList
            else method.name ++ "()".toList) }) := by
  simp only [provideCompletionItems, h1, h2]
  rfl

/-- Witness for C7: member completion on `vehicle.` with methods
`Honk()` and `SetSpeed(v)` yields exactly those two candidates, with
snippets `Honk()` and `SetSpeed(${1:v})`. -/
theorem c7_member_completion_witness :
    provideCompletionItems demoModules ("vehicle.".toList) =
      [{ label := "Honk".toList, kind := CIKind.method,
         detail := "vehicle.Honk()".toList,
         documentation :=
           some "**vehicle**.Honk\n\n```\n.Honk()\n```".toList,
         insertText := some "Honk()".toList },
       { label := "SetSpeed".toList, kind := CIKind.method,
         detail := "vehicle.SetSpeed(v)".toList,
         documentation :=
           some "**vehicle**.SetSpeed\n\n```\n.SetSpeed(v)\n```".toList,
         insertText := some "SetSpeed($\x7b1:v\x7d)".toList }] := by
  have h := c7_member_completion demoModules ("vehicle.".toList)
    ("vehicle".toList) [] vehicleMod (by decide) (by decide)
  rw [h]
  decide

/-- C10: for text ending in a member-access pattern whose identifier is
not a known module, completion returns the empty candidate list (no
fallback); the top-level completions are returned exactly when the text
does not match the member-access pattern at all. -/
theorem c10_member_completion_no_fallback (mods : List ModuleInfo)
    (textBefore : Str) :
    (∀ modName frag, dotMatch textBefore = some (modName, frag) →
      mapGet mods modName = none →
      provideCompletionItems mods textBefore = [])
    ∧ (dotMatch textBefore = none →
      provideCompletionItems mods textBefore = topLevelItems mods) := by
  constructor
  · intro modName frag h1 h2
    simp only [provideCompletionItems, h1, h2]
  · intro h1
    simp only [provideCompletionItems, h1]

/-- Witness for C10: member completion on `unknown.` against the demo
index returns the empty list. -/
theorem c10_member_completion_no_fallback_witness :
    provideCompletionItems demoModules ("unknown.".toList) = [] :=
  (c10_member_completion_no_fallback demoModules ("unknown.".toList)).1
    ("unknown".toList) [] (by decide) (by decide)

/-- C8: hover resolution follows the source's priority order — (1) token
preceded by a dot: method lookup in the module named before the dot;
(2) token followed by a dot: module lookup; (3) otherwise module,
built-in, keyword, then constant — the first successful step's
documentation is returned, and when every step fails the result is
none. -/
theorem c8_hover_priority (mods : List ModuleInfo) (lineText : Str)
    (ws we : Nat) :
    (∀ h, hoverMethod mods lineText ws we = some h →
      provideHover mods lineText ws we = some h)
    ∧ (hoverMethod mods lineText ws we = none →
      ∀ h, hoverModuleDot mods lineText ws we = some h →
        provideHover mods lineText ws we = some h)
    ∧ (hoverMethod mods lineText ws we = none →
      hoverModuleDot mods lineText ws we = none →
      ∀ h, hoverModuleStandalone mods lineText ws we = some h →
        provideHover mods lineText ws we = some h)
    ∧ (hoverMethod mods lineText ws we = none →
      hoverModuleDot mods lineText ws we = none →
      hoverModuleStandalone mods lineText ws we = none →
      ∀ h, hoverBuiltin lineText ws we = some h →
        provideHover mods lineText ws we = some h)
    ∧ (hoverMethod mods lineText ws we = none →
      hoverModuleDot mods lineText ws we = none →
      hoverModuleStandalone mods lineText ws we = none →
      hoverBuiltin lineText ws we = none →
      ∀ h, hoverKeyword lineText ws we = some h →
        provideHover mods lineText ws we = some h)
    ∧ (hoverMethod mods lineText ws we = none →
      hoverModuleDot mods lineText ws we = none →
      hoverModuleStandalone mods lineText ws we = none →
      hoverBuiltin lineText ws we = none →
      hoverKeyword lineText ws we = none →
      ∀ h, hoverConst lineText ws we = some h →
        provideHover mods lineText ws we = some h)
    ∧ (hoverMethod mods lineText ws we = none →
      hoverModuleDot mods lineText ws we = none →
      hoverModuleStandalone mods lineText ws we = none →
      hoverBuiltin lineText ws we = none →
      hoverKeyword lineText ws we = none →
      hoverConst lineText ws we = none →
      provideHover mods lineText ws we = none) := by
  refine ⟨?_, ?_, ?_, ?_, ?_, ?_, ?_⟩
  · intro h hh
    simp only [provideHover, hh, orElseO]
  · intro h1 h hh
    simp only [provideHover, h1, hh, orElseO]
  · intro h1 h2 h hh
    simp only [provideHover, h1, h2, hh, orElseO]
  · intro h1 h2 h3 h hh
    simp only [provideHover, h1, h2, h3, hh, orElseO]
  · intro h1 h2 h3 h4 h hh
    simp only [provideHover, h1, h2, h3, h4, hh, orElseO]
  · intro h1 h2 h3 h4 h5 h hh
    simp only [provideHover, h1, h2, h3, h4, h5, hh, orElseO]
  · intro h1 h2 h3 h4 h5 h6
    simp only [provideHover, h1, h2, h3, h4, h5, h6, orElseO]

/-- Witness for C8: hovering the token `vehicle` (word range `[0, 7)`) in
the line `vehicle.Honk`, a token immediately followed by a dot naming a
known module, returns the module documentation with its description and
method count. -/
theorem c8_hover_priority_witness :
    provideHover demoModules ("vehicle.Honk".toList) 0 7 =
      some (HoverInfo.moduleDot
        "**vehicle** — car control\n\n2 methods".toList) :=
  (c8_hover_priority demoModules ("vehicle.Honk".toList) 0 7).2.1
    (by decide) _ (by decide)

/-- C6: signature help scans backwards for the innermost unmatched open
parenthesis tracking nesting depth, reports the number of commas seen at
depth zero as the active-parameter index, resolves the callee before the
parenthesis trying a built-in name first and then a `module.method`
pattern, and returns no result when there is no unmatched open
parenthesis or the callee resolves to neither. -/
theorem c6_signature_help (mods : List ModuleInfo) (textBefore : Str) :
    (scanRev textBefore.reverse 0 0 = none →
      provideSignatureHelp mods textBefore = none)
    ∧ (∀ pre commas, scanRev textBefore.reverse 0 0 = some (pre, commas) →
      provideSignatureHelp mods textBefore =
        resolveCallee mods (trimRight pre) commas)
    ∧ (∀ s commas b, builtinLookup s = some b →
      resolveCallee mods s commas =
        some { label := b.sig, docString := b.detail,
               parameters := builtinParams b.sig, activeParameter := commas })
    ∧ (∀ s commas moduleName methodName method, builtinLookup s = none →
      callLookup mods s = some (moduleName, methodName, method) →
      resolveCallee mods s commas =
        some { label := sigLabel moduleName methodName method,
               docString := method.raw, parameters := method.params,
               activeParameter := commas })
    ∧ (∀ s commas, builtinLookup s = none → callLookup mods s = none →
      resolveCallee mods s commas = none)
    ∧ (∀ s commas sh, resolveCallee mods s commas = some sh →
      sh.activeParameter = commas) := by
  refine ⟨?_, ?_, ?_, ?_, ?_, ?_⟩
  · intro h
    simp only [provideSignatureHelp, h]
  · intro pre commas h
    simp only [provideSignatureHelp, h]
  · intro s commas b hb
    simp only [resolveCallee, hb]
  · intro s commas moduleName methodName method hb hc
    simp only [resolveCallee, hb, hc]
  · intro s commas hb hc
    simp only [resolveCallee, hb, hc]
  · intro s commas sh h
    rw [resolveCallee] at h
    cases hb : builtinLookup s with
    | some b =>
      rw [hb] at h
      injection h with h
      rw [← h]
    | none =>
      rw [hb] at h
      cases hc : callLookup mods s with
      | some x =>
        obtain ⟨moduleName, methodName, method⟩ := x
        rw [hc] at h
        injection h with h
        rw [← h]
      | none =>
        rw [hc] at h
        exact absurd h (by simp)

/-- Witness for C6: signature help on `engine.SetSpeed(10, ` (cursor after
the comma) for the two-parameter method `SetSpeed(v, w) -> float` reports
active-parameter index 1. -/
theorem c6_signature_help_witness :
    provideSignatureHelp demoModules ("engine.SetSpeed(10, ".toList) =
      some { label := "engine.SetSpeed(v, w) -> float".toList,
             docString := ".SetSpeed(v, w) -> float".toList,
             parameters := ["v".toList, "w".toList],
             activeParameter := 1 } := by
  have h := (c6_signature_help demoModules
      ("engine.SetSpeed(10, ".toList)).2.1
    ("engine.SetSpeed".toList) 1 (by decide)
  rw [h]
  decide
